import Mathlib

/-!
Verification of the AutoInvestMCP indicator / signal / backtest core.

The Python source threads pandas DataFrames through indicator and strategy
stages.  The embedding models numeric columns as `List ℚ` (pandas float
arithmetic on the inputs the claims concern is exact rational arithmetic,
except for the IEEE special values noted at `RSI.rsiAt`), bar indices as
`ℕ`, and signal columns as `List ℚ` or `List ℤ`.  A pandas value that is
NaN (warm-up of a rolling window, `shift(1)` at the first row) is modelled
either by an `Option` result or, inside the mask of a signal rule, by the
source's own convention that every comparison against NaN is false.
-/

namespace AutoInvest

/-! ## MACD cross signal (src/indicators/moving_averages.py, MACD.get_signal) -/

/-- Value written by the two `.loc` masks of `MACD.get_signal` with
`signal_type = 'cross'` at one bar, given the previous and current values of
the `macd` and `macd_signal` columns.  The source writes the golden-cross
mask (`1`) first and the death-cross mask (`-1`) second, so on (impossible)
overlap the later write wins; the death-cross test therefore comes first. -/
def crossVal (mPrev sPrev mCur sCur : ℚ) : ℚ :=
  if mCur < sCur ∧ sPrev ≤ mPrev then -1
  else if sCur < mCur ∧ mPrev ≤ sPrev then 1
  else 0

/-- The `macd_cross_signal` column of `MACD.get_signal` (`signal_type='cross'`),
computed from already-present `macd` and `macd_signal` columns.  At row 0 the
`shift(1)` values are NaN, every mask comparison is false, and the column
keeps its initialisation value `0`. -/
def macdCrossSignal (macd sig : List ℚ) : List ℚ :=
  (List.range macd.length).map fun i =>
    if i = 0 then 0
    else crossVal (macd.getD (i-1) 0) (sig.getD (i-1) 0) (macd.getD i 0) (sig.getD i 0)

/-! ## RSI (src/indicators/oscillators.py, RSI.calculate) -/

namespace RSI

/-- The clipped positive price change `gain` at row `j` (`delta = diff()`,
negatives replaced by 0).  Row 0 of `diff()` is NaN in the source; callers
only use `gainAt` at rows `j ≥ 1`. -/
def gainAt (closes : List ℚ) (j : ℕ) : ℚ :=
  max (closes.getD j 0 - closes.getD (j-1) 0) 0

/-- The clipped negated negative price change `loss` at row `j`. -/
def lossAt (closes : List ℚ) (j : ℕ) : ℚ :=
  max (closes.getD (j-1) 0 - closes.getD j 0) 0

/-- Embeds `gain.rolling(window).mean()` at row `i`: the mean of the last `window`
gains.  Defined (non-NaN) in pandas exactly when `window ≤ i`, because the
rolling window must not contain the NaN at row 0 of `diff()`. -/
def avg_gain (closes : List ℚ) (window i : ℕ) : ℚ :=
  (((List.range window).map fun k => gainAt closes (i - k)).sum) / (window : ℚ)

/-- Embeds `loss.rolling(window).mean()` at row `i`. -/
def avg_loss (closes : List ℚ) (window i : ℕ) : ℚ :=
  (((List.range window).map fun k => lossAt closes (i - k)).sum) / (window : ℚ)

/-- The `rsi_<window>` column value at row `i`, as computed by
`RSI.calculate`: `rs = avg_gain / avg_loss`, `rsi = 100 - 100/(1+rs)`.
The source has no special case for `avg_loss = 0`; pandas float semantics
apply: during warm-up (`i < window`) or out of range the value is NaN
(`none`); when `avg_loss = 0` and `avg_gain > 0`, `rs = +inf` and
`100 - 100/(1+inf) = 100` exactly; when both averages are 0, `rs = 0/0 = NaN`
and the result is NaN (`none`); otherwise plain rational arithmetic. -/
def rsiAt (closes : List ℚ) (window i : ℕ) : Option ℚ :=
  if i < window ∨ closes.length ≤ i then none
  else if avg_loss closes window i = 0 then
    (if avg_gain closes window i = 0 then none else some 100)
  else some (100 - 100 / (1 + avg_gain closes window i / avg_loss closes window i))

/-- The `rsi_<window>_level_signal` column of `RSI.get_signal`
(`signal_type='level'`), over the defined region of the `rsi` column.  The
source writes the oversold-bounce mask (`1`) first and the overbought-fall
mask (`-1`) second, so the latter is tested first here.  Row 0 gets `0`
(NaN shift). -/
def level_signal (rsi : List ℚ) (overbought oversold : ℚ) : List ℚ :=
  (List.range rsi.length).map fun i =>
    if i = 0 then 0
    else if rsi.getD i 0 < overbought ∧ overbought ≤ rsi.getD (i-1) 0 then -1
    else if oversold < rsi.getD i 0 ∧ rsi.getD (i-1) 0 ≤ oversold then 1
    else 0

end RSI

/-! ## KDJ level signal (src/indicators/oscillators.py, KDJ.get_signal) -/

namespace KDJ

/-- The `kdj_level_signal` column of `KDJ.get_signal` (`signal_type='level'`),
over the `kdj_k` column: same edge-detected structure as the RSI level
signal. -/
def level_signal (kdjK : List ℚ) (overbought oversold : ℚ) : List ℚ :=
  (List.range kdjK.length).map fun i =>
    if i = 0 then 0
    else if kdjK.getD i 0 < overbought ∧ overbought ≤ kdjK.getD (i-1) 0 then -1
    else if oversold < kdjK.getD i 0 ∧ kdjK.getD (i-1) 0 ≤ oversold then 1
    else 0

end KDJ

/-! ## Bollinger mean-reversion signal (moving_averages.py, BollingerBands.get_signal) -/

namespace BollingerBands

/-- The `bollinger_mean_reversion_signal` column of `BollingerBands.get_signal`
(`signal_type='mean_reversion'`), over the price column and the already
computed `bollinger_upper` / `bollinger_lower` columns.  Both masks are pure
level comparisons at the current bar (no `shift(1)`).  The source writes the
sell mask (`-1`, price at or above upper band) first and the buy mask (`1`,
price at or below lower band) second, so the buy test comes first here. -/
def mean_reversion_signal (price upper lower : List ℚ) : List ℚ :=
  (List.range price.length).map fun i =>
    if price.getD i 0 ≤ lower.getD i 0 then 1
    else if upper.getD i 0 ≤ price.getD i 0 then -1
    else 0

end BollingerBands

/-! ## Volume surge signal (oscillators.py, VolumeProfile.get_signal) -/

namespace VolumeProfile

/-- The `volume_surge_signal` column of `VolumeProfile.get_signal`
(`signal_type='surge'`), over the `volume_ratio`, `close` and `open` columns
(the ratio column is called `vRel` here).  Both masks are pure level
comparisons at the current bar (no `shift(1)`); the source writes the buy
mask first and the sell mask second, so the sell test comes first here (the
two are mutually exclusive anyway). -/
def surge_signal (vRel close openPrice : List ℚ) (volume_surge : ℚ) : List ℚ :=
  (List.range vRel.length).map fun i =>
    if volume_surge < vRel.getD i 0 ∧ close.getD i 0 < openPrice.getD i 0 then -1
    else if volume_surge < vRel.getD i 0 ∧ openPrice.getD i 0 < close.getD i 0 then 1
    else 0

end VolumeProfile

/-! ## StrategyBase.backtest (src/strategy/strategy_base.py)

The loop `for i in range(1, len(data))` executes the previous bar's signal at
the current bar's close, then records the bar.  The pandas columns
`data['capital'] / data['position'] / data['equity']` are initialised to 0.0
for every row and overwritten for rows `1 .. n-1`; the embedding keeps the
surviving index-0 zero in the initial state and appends each processed bar's
recorded values, which yields the same final columns.  All functions are
total: the insufficient-capital path is an ordinary branch, never an
exception. -/

/-- One entry of the backtest trade log.  The source dicts also carry the
derived fields `cost` / `proceeds` / `profit` / `profit_pct`; the embedding
keeps the side, the bar label `date` (the default RangeIndex equals the loop
index `i`), the execution price, the share count and the cash balance after
the fill. -/
structure BTrade where
  isBuy : Bool
  date : ℕ
  price : ℚ
  shares : ℚ
  capitalAfter : ℚ
  deriving DecidableEq, Repr

/-- Simulator state of `StrategyBase.backtest`: the loop variables
`capital`, `position`, `entry_price`, the trade log, and the recorded
per-bar columns. -/
structure BTState where
  capital : ℚ
  position : ℚ
  entry_price : ℚ
  trades : List BTrade
  capitalCol : List ℚ
  positionCol : List ℚ
  equityCol : List ℚ
  deriving DecidableEq, Repr

namespace StrategyBase

/-- Embeds `shares = (capital * position_size) / price` (line 104). -/
def buyShares (position_size capital price : ℚ) : ℚ :=
  capital * position_size / price

/-- Embeds `cost = shares * price * (1 + commission)` (line 105). -/
def buyCost (position_size commission capital price : ℚ) : ℚ :=
  buyShares position_size capital price * price * (1 + commission)

/-- The signal-handling half of one loop iteration (lines 98-137): bar `i`
executes the signal of bar `i-1` at bar `i`'s close.  A buy requires a flat
position and sufficient capital for the full cost; a sell requires a
positive position and always liquidates fully. -/
def tradePhase (position_size commission : ℚ) (close : List ℚ) (sig : List ℤ)
    (st : BTState) (i : ℕ) : BTState :=
  let price := close.getD i 0
  let signal := sig.getD (i - 1) 0
  if signal = 1 ∧ st.position = 0 then
    let shares := buyShares position_size st.capital price
    let cost := shares * price * (1 + commission)
    if cost ≤ st.capital then
      { st with capital := st.capital - cost, position := shares, entry_price := price,
                trades := st.trades ++ [⟨true, i, price, shares, st.capital - cost⟩] }
    else st
  else if signal = -1 ∧ 0 < st.position then
    let proceeds := st.position * price * (1 - commission)
    { st with capital := st.capital + proceeds, position := 0, entry_price := 0,
              trades := st.trades ++ [⟨false, i, price, st.position, st.capital + proceeds⟩] }
  else st

/-- The per-bar recording half of one loop iteration (lines 140-142):
`capital`, `position` and `equity = capital + position * price` are written
for bar `i` whether or not a trade occurred. -/
def recordBar (close : List ℚ) (st : BTState) (i : ℕ) : BTState :=
  { st with capitalCol := st.capitalCol ++ [st.capital],
            positionCol := st.positionCol ++ [st.position],
            equityCol := st.equityCol ++ [st.capital + st.position * close.getD i 0] }

/-- One full loop iteration of `StrategyBase.backtest` at bar `i`. -/
def btStep (position_size commission : ℚ) (close : List ℚ) (sig : List ℤ)
    (st : BTState) (i : ℕ) : BTState :=
  recordBar close (tradePhase position_size commission close sig st i) i

/-- State before the loop (lines 86-94): full capital, flat position, empty
trade log, and the zero initialisation of row 0 of the recorded columns
(rows `1 .. n-1` get overwritten by the loop; row 0 never does). -/
def btInit (initial_capital : ℚ) (close : List ℚ) : BTState :=
  { capital := initial_capital, position := 0, entry_price := 0, trades := [],
    capitalCol := if close.isEmpty then [] else [0],
    positionCol := if close.isEmpty then [] else [0],
    equityCol := if close.isEmpty then [] else [0] }

/-- State after the loop has processed bars `1 .. k` in order. -/
def btUpTo (initial_capital position_size commission : ℚ)
    (close : List ℚ) (sig : List ℤ) : ℕ → BTState
  | 0 => btInit initial_capital close
  | k + 1 => btStep position_size commission close sig
      (btUpTo initial_capital position_size commission close sig k) (k + 1)

/-- Embeds `StrategyBase.backtest` on a series whose `signal` column has already
been generated: the loop runs over bars `1 .. len(data)-1`. -/
def backtest (initial_capital position_size commission : ℚ)
    (close : List ℚ) (sig : List ℤ) : BTState :=
  btUpTo initial_capital position_size commission close sig (close.length - 1)

end StrategyBase

/-! ## GridStrategy (src/strategy/grid_strategies.py) -/

/-- One entry of the grid-backtest trade log.  The source's buy dict also
carries a derived `cost` and running `capital`; those fields are omitted (no
claim references them).  Only buy entries are ever appended: the sell append
at lines 187-196 is unreachable, because line 181 raises before it (see
`GridStrategy.gridTradePhase`). -/
structure GridTrade where
  isBuy : Bool
  date : ℕ
  price : ℚ
  shares : ℚ
  grid : ℕ
  deriving DecidableEq, Repr

/-- Simulator state of `GridStrategy.backtest`: cash and the per-grid-level
inventory dict `positions` (a Python dict keyed by grid level, modelled as an
insertion-ordered association list), plus the trade log.  The recorded
per-bar capital / position-value / equity columns are not modelled (no claim
references them). -/
structure GridState where
  capital : ℚ
  positions : List (ℕ × ℚ)
  trades : List GridTrade
  deriving DecidableEq, Repr

namespace GridStrategy

/-- Embeds `_calculate_grid_prices` (lines 44-60): `grid_num + 1` equidistant
prices from `lower_price` to `upper_price`. -/
def grid_prices (upper_price lower_price : ℚ) (grid_num : ℕ) : List ℚ :=
  (List.range (grid_num + 1)).map fun i =>
    lower_price + (i : ℚ) * ((upper_price - lower_price) / (grid_num : ℚ))

/-- The `grid_position` column value of `prepare_data` (lines 74-83) for one
price: the column is initialised to 0, each band `[gp[j], gp[j+1])` writes
`j` (ascending `j`, later writes win — the bands are disjoint), and a final
write puts `len(gp) - 2` on prices at or above the top price. -/
def grid_position (gp : List ℚ) (p : ℚ) : ℕ :=
  let base := (List.range (gp.length - 1)).foldl
    (fun acc j => if gp.getD j 0 ≤ p ∧ p < gp.getD (j + 1) 0 then j else acc) 0
  if gp.getD (gp.length - 1) 0 ≤ p then gp.length - 2 else base

/-- The `signal` column of `generate_signals` (lines 103-113):
`diff()` of the grid-position column; an upward grid move sells (`-1`), a
downward move buys (`1`), row 0 (NaN diff) holds. -/
def grid_signal (gpos : List ℕ) : List ℤ :=
  (List.range gpos.length).map fun i =>
    if i = 0 then 0
    else if gpos.getD (i - 1) 0 < gpos.getD i 0 then -1
    else if gpos.getD i 0 < gpos.getD (i - 1) 0 then 1
    else 0

/-- Embeds `positions.get(k, 0)`: the inventory at grid level `k` (0 when the key
was never created). -/
def dictGet (ps : List (ℕ × ℚ)) (k : ℕ) : ℚ :=
  ((ps.find? fun e => e.1 == k).map Prod.snd).getD 0

/-- Embeds `positions[k] += v` with dict insertion semantics (lines 159-162): update
in place when the key exists, append a new binding otherwise. -/
def dictAdd (ps : List (ℕ × ℚ)) (k : ℕ) (v : ℚ) : List (ℕ × ℚ) :=
  if ps.any fun e => e.1 == k then
    ps.map fun e => if e.1 == k then (e.1, e.2 + v) else e
  else ps ++ [(k, v)]

/-- The level picked by the sell loop (lines 177-178):
`for pos in sorted(positions.keys()): if positions[pos] > 0: ... break` —
the smallest key whose inventory is positive, if any. -/
def lowestFilled (ps : List (ℕ × ℚ)) : Option ℕ :=
  ((ps.filter fun e => decide (0 < e.2)).map Prod.fst).min?

/-- The signal-handling body of one `GridStrategy.backtest` loop iteration
(lines 146-197), as an `Option`; `none` models a `TypeError` escaping the
iteration.  The grid loop reads the CURRENT bar's signal
(`data['signal'].iloc[i]`).  A buy (signal 1) adds `shares_per_grid` to the
CURRENT bar's grid level when the cost fits in cash.  A sell (signal -1)
scans the keys in ascending order for positive inventory; when none exists
the loop falls through harmlessly, but when a level is found, after the
side-effect-free `proceeds` expression the original-cost lookup at line 181
(`data['close'].iloc[positions[pos] == grid_position]`) indexes `.iloc` with
a scalar boolean (share count, a float, compared to the integer grid
position) and raises `TypeError` BEFORE `capital`, the inventory or the
trade log are updated — so an executed sell never completes and the state
updates at lines 184-196 are dead code. -/
def gridTradePhase (shares_per_grid commission : ℚ) (close : List ℚ)
    (gpos : List ℕ) (sig : List ℤ) (st : GridState) (i : ℕ) : Option GridState :=
  let price := close.getD i 0
  let g := gpos.getD i 0
  let signal := sig.getD i 0
  if signal = 1 then
    let cost := shares_per_grid * price * (1 + commission)
    if cost ≤ st.capital then
      some { capital := st.capital - cost,
             positions := dictAdd st.positions g shares_per_grid,
             trades := st.trades ++ [⟨true, i, price, shares_per_grid, g⟩] }
    else some st
  else if signal = -1 then
    match lowestFilled st.positions with
    | some _ => none
    | none => some st
  else some st

/-- State after the grid loop has processed bars `1 .. k` in order, starting
from full cash and an empty inventory dict; `none` once the sell path has
raised (the exception propagates, aborting the backtest). -/
def gridUpTo (shares_per_grid commission : ℚ) (close : List ℚ) (gpos : List ℕ)
    (sig : List ℤ) (initial_capital : ℚ) : ℕ → Option GridState
  | 0 => some { capital := initial_capital, positions := [], trades := [] }
  | k + 1 =>
      (gridUpTo shares_per_grid commission close gpos sig initial_capital k).bind
        fun st => gridTradePhase shares_per_grid commission close gpos sig st (k + 1)

/-- Embeds `GridStrategy.backtest` (lines 117-203): `prepare_data` derives the
grid-position column from the closes (default `price_key = 'close'`),
`generate_signals` derives the signal column, then the loop runs over bars
`1 .. len(data)-1`; `none` is the run aborted by the line-181 `TypeError`. -/
def backtest (upper_price lower_price : ℚ) (grid_num : ℕ)
    (initial_capital shares_per_grid commission : ℚ) (close : List ℚ) :
    Option GridState :=
  let gp := grid_prices upper_price lower_price grid_num
  let gpos := close.map (grid_position gp)
  let sig := grid_signal gpos
  gridUpTo shares_per_grid commission close gpos sig initial_capital (close.length - 1)

end GridStrategy

/-! ## TradeDecision._apply_risk_management (src/trade/trade_decision.py) -/

namespace TradeDecision

/-- Embeds `_apply_risk_management` (lines 60-118).  `account_entries` models
`account_info.items()`: `some ta` stands for a well-formed per-API dict
without an `error` key, contributing its `total_assets` value to the sum
(lines 78-81); `none` stands for an entry skipped by that loop.
`max_position_size` is `risk_params['max_position_size']` (0.1 by default,
settable via `set_risk_params`); the minimum notional 10 is hard-coded at
line 105.  For a signal outside `{0, 1, -1}` the Python function falls off
the end and returns `None`, modelled as `none`. -/
def apply_risk_management (max_position_size : ℚ) (signal : ℤ)
    (current_price : ℚ) (account_entries : List (Option ℚ))
    (current_position : ℚ) : Option (Bool × ℚ) :=
  if signal = 0 then some (false, 0)
  else
    let total_assets := (account_entries.filterMap id).sum
    if total_assets ≤ 0 then some (false, 0)
    else
      let position_value := current_position * current_price
      let available_capital := total_assets * max_position_size
      if signal = 1 then
        if available_capital ≤ position_value then some (false, 0)
        else
          let buy_amount := (available_capital - position_value) / current_price
          if buy_amount * current_price < 10 then some (false, 0)
          else some (true, buy_amount)
      else if signal = -1 then
        if current_position ≤ 0 then some (false, 0)
        else some (true, current_position)
      else none

end TradeDecision

/-! ## DataFrame aliasing model (indicator_base.py / moving_averages.py)

For the ownership claim, a DataFrame is a list of named numeric columns, and
every stage is modelled as returning a PAIR: the result frame, and the state
of the caller's argument object after the call.  pandas semantics: a method
that starts with `data = data.copy()` leaves the caller's object untouched
(second component = the input), while in-place column writes
(`data[col] = ...`, `data.loc[mask, col] = ...`) mutate the caller's object,
so result and caller's object are the same frame (second component = first
component). -/

/-- Column names used by the MACD pipeline stages. -/
inductive ColName where
  | close
  | macd
  | macdSignal
  | macdHist
  | macdCrossSignal
  deriving DecidableEq, Repr

/-- A DataFrame restricted to what the MACD stages touch: an ordered list of
named rational columns. -/
abbrev Frame := List (ColName × List ℚ)

/-- Embeds the check `col in data.columns`. -/
def hasCol (f : Frame) (c : ColName) : Bool :=
  f.any fun e => e.1 == c

/-- Embeds the read `data[col]` (empty when absent; the stages only read present columns). -/
def getCol (f : Frame) (c : ColName) : List ℚ :=
  ((f.find? fun e => e.1 == c).map Prod.snd).getD []

/-- Embeds the write `data[col] = v`: overwrite in place when present, append otherwise. -/
def setCol (f : Frame) (c : ColName) (v : List ℚ) : Frame :=
  if hasCol f c then f.map fun e => if e.1 == c then (c, v) else e
  else f ++ [(c, v)]

/-- Embeds `series.ewm(alpha, adjust=False).mean()` continued from seed `y`. -/
def ewmFrom (a y : ℚ) : List ℚ → List ℚ
  | [] => []
  | x :: xs =>
    let y2 := (1 - a) * y + a * x
    y2 :: ewmFrom a y2 xs

/-- Embeds `series.ewm(alpha, adjust=False).mean()`: seeded by the first value. -/
def ewm (a : ℚ) : List ℚ → List ℚ
  | [] => []
  | x :: xs => x :: ewmFrom a x xs

/-- Embeds `series.ewm(span=span, adjust=False).mean()`: `alpha = 2 / (span + 1)`. -/
def ewmSpan (span : ℕ) (xs : List ℚ) : List ℚ :=
  ewm (2 / ((span : ℚ) + 1)) xs

namespace MACD

/-- Embeds `MACD.calculate` (moving_averages.py lines 99-126): copies the frame
(`data = data.copy()`), then adds the `macd`, `macd_signal` and `macd_hist`
columns computed from the price column (default `price_key = 'close'`). -/
def calculate (fast_period slow_period signal_period : ℕ) (f : Frame) : Frame :=
  let price := getCol f ColName.close
  let fast_ema := ewmSpan fast_period price
  let slow_ema := ewmSpan slow_period price
  let macdLine := List.zipWith (fun a b => a - b) fast_ema slow_ema
  let signalLine := ewmSpan signal_period macdLine
  let f1 := setCol f ColName.macd macdLine
  let f2 := setCol f1 ColName.macdSignal signalLine
  setCol f2 ColName.macdHist (List.zipWith (fun a b => a - b) macdLine signalLine)

/-- Embeds `MACD.get_signal` with `signal_type='cross'` (lines 139-155), returning
(result frame, caller's frame after the call).  When the `macd` column is
already present, the method skips `calculate` — the only copy — and writes
`macd_cross_signal` in place on the caller's frame, so the caller's object
IS the result.  Only when `macd` is absent does the internal
`data = self.calculate(data)` rebind to a copy, leaving the caller's frame
untouched. -/
def get_signal_cross (fast_period slow_period signal_period : ℕ)
    (f : Frame) : Frame × Frame :=
  if hasCol f ColName.macd then
    let res := setCol f ColName.macdCrossSignal
      (macdCrossSignal (getCol f ColName.macd) (getCol f ColName.macdSignal))
    (res, res)
  else
    let d := calculate fast_period slow_period signal_period f
    let res := setCol d ColName.macdCrossSignal
      (macdCrossSignal (getCol d ColName.macd) (getCol d ColName.macdSignal))
    (res, f)

end MACD

/-! ## General list helpers -/

/-- Value of a column built by mapping over `List.range`. -/
theorem getD_map_range {α : Type} (f : ℕ → α) (n i : ℕ) (d : α) (h : i < n) :
    ((List.range n).map f).getD i d = f i := by
  rw [List.getD_eq_getElem?_getD, List.getElem?_map, List.getElem?_range h]
  rfl

/-! ## Theorems -/

/-- Helper characterising the per-bar value of the MACD cross rule:
`crossVal a b c d = 1` iff the current macd `c` is strictly above the current
signal `d` and the previous macd `a` was at or below the previous signal `b`;
`-1` is the mirror; anything else gives `0`. -/
theorem crossVal_cases (a b c d : ℚ) :
    (crossVal a b c d = 1 ↔ d < c ∧ a ≤ b)
    ∧ (crossVal a b c d = -1 ↔ c < d ∧ b ≤ a)
    ∧ ((¬(d < c ∧ a ≤ b) ∧ ¬(c < d ∧ b ≤ a)) → crossVal a b c d = 0) := by
  unfold crossVal
  split_ifs with hdeath hgold
  · refine ⟨⟨fun h => absurd h (by norm_num), fun h => absurd hdeath.1 (not_lt.mpr h.1.le)⟩,
      ⟨fun _ => hdeath, fun _ => rfl⟩, fun h => absurd hdeath h.2⟩
  · refine ⟨⟨fun _ => hgold, fun _ => rfl⟩,
      ⟨fun h => absurd h (by norm_num), fun h => absurd hgold.1 (not_lt.mpr h.1.le)⟩,
      fun h => absurd hgold h.1⟩
  · refine ⟨⟨fun h => absurd h (by norm_num), fun h => absurd h hgold⟩,
      ⟨fun h => absurd h (by norm_num), fun h => absurd h hdeath⟩, fun _ => rfl⟩

/-- C1: with the MACD columns defined, `get_signal('cross')` writes `+1` at
bar `i` iff `macd[i] > macd_signal[i]` and `macd[i-1] ≤ macd_signal[i-1]`,
writes `-1` iff `macd[i] < macd_signal[i]` and `macd[i-1] ≥ macd_signal[i-1]`,
and writes `0` at every other index, in particular at index 0. -/
theorem c1_macd_cross_signal (macd sig : List ℚ) (i : ℕ) (hi : i < macd.length) :
    ((macdCrossSignal macd sig).getD i 0 = 1 ↔
       1 ≤ i ∧ sig.getD i 0 < macd.getD i 0 ∧ macd.getD (i-1) 0 ≤ sig.getD (i-1) 0)
    ∧ ((macdCrossSignal macd sig).getD i 0 = -1 ↔
       1 ≤ i ∧ macd.getD i 0 < sig.getD i 0 ∧ sig.getD (i-1) 0 ≤ macd.getD (i-1) 0)
    ∧ ((¬(1 ≤ i ∧ sig.getD i 0 < macd.getD i 0 ∧ macd.getD (i-1) 0 ≤ sig.getD (i-1) 0)
        ∧ ¬(1 ≤ i ∧ macd.getD i 0 < sig.getD i 0 ∧ sig.getD (i-1) 0 ≤ macd.getD (i-1) 0))
        → (macdCrossSignal macd sig).getD i 0 = 0) := by
  have hmap : (macdCrossSignal macd sig).getD i 0 =
      if i = 0 then 0
      else crossVal (macd.getD (i-1) 0) (sig.getD (i-1) 0) (macd.getD i 0) (sig.getD i 0) := by
    unfold macdCrossSignal
    exact getD_map_range _ _ _ _ hi
  rw [hmap]
  by_cases h0 : i = 0
  · subst h0
    norm_num
  · have h1 : 1 ≤ i := Nat.one_le_iff_ne_zero.mpr h0
    rw [if_neg h0]
    obtain ⟨hone, hneg, hzero⟩ :=
      crossVal_cases (macd.getD (i-1) 0) (sig.getD (i-1) 0) (macd.getD i 0) (sig.getD i 0)
    refine ⟨?_, ?_, ?_⟩
    · rw [hone]
      exact ⟨fun h => ⟨h1, h⟩, fun h => h.2⟩
    · rw [hneg]
      exact ⟨fun h => ⟨h1, h⟩, fun h => h.2⟩
    · intro ⟨ha, hb⟩
      exact hzero ⟨fun h => ha ⟨h1, h⟩, fun h => hb ⟨h1, h⟩⟩

/-- C1 witness: a concrete golden cross.  With `macd = [0, 2]` and
`macd_signal = [1, 1]`, bar 1 satisfies the cross condition and the signal
there is `+1`. -/
theorem c1_witness :
    (macdCrossSignal [0, 2] [1, 1]).getD 1 0 = 1 :=
  (c1_macd_cross_signal [0, 2] [1, 1] 1 (by norm_num)).1.mpr (by norm_num)

/-- C3 counterexample: on the constant series `[5,5,5,5]` with window 2, row 2
has a fully populated window and zero average loss, yet `RSI.calculate`
produces NaN (`none`), not 100: the rolling average gain is also zero and
`rs = 0/0` is NaN in pandas. -/
theorem c3_counterexample :
    RSI.avg_loss [5, 5, 5, 5] 2 2 = 0 ∧ RSI.rsiAt [5, 5, 5, 5] 2 2 = none := by
  have hloss : RSI.avg_loss [5, 5, 5, 5] 2 2 = 0 := by
    norm_num [RSI.avg_loss, RSI.lossAt, List.range_succ]
  have hgain : RSI.avg_gain [5, 5, 5, 5] 2 2 = 0 := by
    norm_num [RSI.avg_gain, RSI.gainAt, List.range_succ]
  refine ⟨hloss, ?_⟩
  unfold RSI.rsiAt
  rw [if_neg (by norm_num), if_pos hloss, if_pos hgain]

/-- C3 amended: at a row with a fully populated window and zero rolling
average loss, `RSI.calculate` yields exactly 100 when the rolling average
gain is nonzero, and NaN (no value) when the average gain is also zero
(constant price series). -/
theorem c3_rsi_zero_avg_loss (closes : List ℚ) (window i : ℕ)
    (hw : window ≤ i) (hi : i < closes.length)
    (hloss : RSI.avg_loss closes window i = 0) :
    (RSI.avg_gain closes window i ≠ 0 → RSI.rsiAt closes window i = some 100)
    ∧ (RSI.avg_gain closes window i = 0 → RSI.rsiAt closes window i = none) := by
  unfold RSI.rsiAt
  rw [if_neg (by push_neg; exact ⟨hw, hi⟩), if_pos hloss]
  constructor
  · intro hg
    rw [if_neg hg]
  · intro hg
    rw [if_pos hg]

/-- C3 witness: on the strictly rising series `[1,2,3,4]` with window 2,
row 2 has zero average loss and positive average gain, and the computed RSI
is exactly 100. -/
theorem c3_witness : RSI.rsiAt [1, 2, 3, 4] 2 2 = some 100 :=
  (c3_rsi_zero_avg_loss [1, 2, 3, 4] 2 2 (by norm_num) (by norm_num)
    (by norm_num [RSI.avg_loss, RSI.lossAt, List.range_succ])).1
    (by norm_num [RSI.avg_gain, RSI.gainAt, List.range_succ])

/-- C4 counterexample: the volume-surge signal is a pure level rule.  With
`volume_ratio = [3,3]`, `close = [5,5]`, `open = [1,1]` and surge threshold 2,
the triggering condition (ratio above threshold, close above open) holds at
bar 0 and still holds at bar 1, and the signal fires `+1` at both bars —
bar 1 fires even though the condition already held at bar 0. -/
theorem c4_counterexample :
    VolumeProfile.surge_signal [3, 3] [5, 5] [1, 1] 2 = [1, 1]
    ∧ ((2:ℚ) < 3 ∧ (1:ℚ) < 5) := by
  constructor <;> decide

/-- C4 amended: the RSI and KDJ `level` signals are edge-detected — a nonzero
signal at bar `i` implies the triggering threshold condition failed at bar
`i-1` — but the Bollinger `mean_reversion` and volume `surge` signals are
pure level rules: they fire at every bar where the threshold condition
holds, regardless of the previous bar, so they repeat on consecutive bars
while the condition persists. -/
theorem c4_level_signal_edges :
    (∀ (rsi : List ℚ) (ob os : ℚ) (i : ℕ),
        ((RSI.level_signal rsi ob os).getD i 0 = 1 → ¬ os < rsi.getD (i-1) 0)
      ∧ ((RSI.level_signal rsi ob os).getD i 0 = -1 → ¬ rsi.getD (i-1) 0 < ob))
    ∧ (∀ (kdjK : List ℚ) (ob os : ℚ) (i : ℕ),
        ((KDJ.level_signal kdjK ob os).getD i 0 = 1 → ¬ os < kdjK.getD (i-1) 0)
      ∧ ((KDJ.level_signal kdjK ob os).getD i 0 = -1 → ¬ kdjK.getD (i-1) 0 < ob))
    ∧ (∀ (price upper lower : List ℚ) (i : ℕ), i < price.length →
        (price.getD i 0 ≤ lower.getD i 0 →
          (BollingerBands.mean_reversion_signal price upper lower).getD i 0 = 1)
      ∧ (upper.getD i 0 ≤ price.getD i 0 → ¬ price.getD i 0 ≤ lower.getD i 0 →
          (BollingerBands.mean_reversion_signal price upper lower).getD i 0 = -1))
    ∧ (∀ (vRel close openPrice : List ℚ) (s : ℚ) (i : ℕ), i < vRel.length →
        (s < vRel.getD i 0 → close.getD i 0 < openPrice.getD i 0 →
          (VolumeProfile.surge_signal vRel close openPrice s).getD i 0 = -1)
      ∧ (s < vRel.getD i 0 → openPrice.getD i 0 < close.getD i 0 →
          (VolumeProfile.surge_signal vRel close openPrice s).getD i 0 = 1)) := by
  refine ⟨?_, ?_, ?_, ?_⟩
  · intro rsi ob os i
    by_cases hi : i < rsi.length
    · have hmap : (RSI.level_signal rsi ob os).getD i 0 =
          if i = 0 then 0
          else if rsi.getD i 0 < ob ∧ ob ≤ rsi.getD (i-1) 0 then -1
          else if os < rsi.getD i 0 ∧ rsi.getD (i-1) 0 ≤ os then 1 else 0 := by
        unfold RSI.level_signal
        exact getD_map_range _ _ _ _ hi
      rw [hmap]
      split_ifs with h0 hfall hrise
      · exact ⟨fun h => absurd h (by norm_num), fun h => absurd h (by norm_num)⟩
      · exact ⟨fun h => absurd h (by norm_num), fun _ => not_lt.mpr hfall.2⟩
      · exact ⟨fun _ => not_lt.mpr hrise.2, fun h => absurd h (by norm_num)⟩
      · exact ⟨fun h => absurd h (by norm_num), fun h => absurd h (by norm_num)⟩
    · rw [List.getD_eq_default _ _ (by unfold RSI.level_signal; simpa using not_lt.mp hi)]
      exact ⟨fun h => absurd h (by norm_num), fun h => absurd h (by norm_num)⟩
  · intro kdjK ob os i
    by_cases hi : i < kdjK.length
    · have hmap : (KDJ.level_signal kdjK ob os).getD i 0 =
          if i = 0 then 0
          else if kdjK.getD i 0 < ob ∧ ob ≤ kdjK.getD (i-1) 0 then -1
          else if os < kdjK.getD i 0 ∧ kdjK.getD (i-1) 0 ≤ os then 1 else 0 := by
        unfold KDJ.level_signal
        exact getD_map_range _ _ _ _ hi
      rw [hmap]
      split_ifs with h0 hfall hrise
      · exact ⟨fun h => absurd h (by norm_num), fun h => absurd h (by norm_num)⟩
      · exact ⟨fun h => absurd h (by norm_num), fun _ => not_lt.mpr hfall.2⟩
      · exact ⟨fun _ => not_lt.mpr hrise.2, fun h => absurd h (by norm_num)⟩
      · exact ⟨fun h => absurd h (by norm_num), fun h => absurd h (by norm_num)⟩
    · rw [List.getD_eq_default _ _ (by unfold KDJ.level_signal; simpa using not_lt.mp hi)]
      exact ⟨fun h => absurd h (by norm_num), fun h => absurd h (by norm_num)⟩
  · intro price upper lower i hi
    have hmap : (BollingerBands.mean_reversion_signal price upper lower).getD i 0 =
        if price.getD i 0 ≤ lower.getD i 0 then 1
        else if upper.getD i 0 ≤ price.getD i 0 then -1 else 0 := by
      unfold BollingerBands.mean_reversion_signal
      exact getD_map_range _ _ _ _ hi
    rw [hmap]
    constructor
    · intro h
      rw [if_pos h]
    · intro h hnot
      rw [if_neg hnot, if_pos h]
  · intro vRel close openPrice s i hi
    have hmap : (VolumeProfile.surge_signal vRel close openPrice s).getD i 0 =
        if s < vRel.getD i 0 ∧ close.getD i 0 < openPrice.getD i 0 then -1
        else if s < vRel.getD i 0 ∧ openPrice.getD i 0 < close.getD i 0 then 1 else 0 := by
      unfold VolumeProfile.surge_signal
      exact getD_map_range _ _ _ _ hi
    rw [hmap]
    constructor
    · intro h1 h2
      rw [if_pos ⟨h1, h2⟩]
    · intro h1 h2
      rw [if_neg (fun h => absurd h2 (not_lt.mpr h.2.le)), if_pos ⟨h1, h2⟩]

/-- Reading any index of a list of nonnegative rationals (default 0) is
nonnegative. -/
theorem getD_nonneg (l : List ℚ) (hl : ∀ x ∈ l, 0 ≤ x) (i : ℕ) : 0 ≤ l.getD i 0 := by
  induction l generalizing i with
  | nil => simp [List.getD]
  | cons a l ih =>
    cases i with
    | zero => exact hl a (by simp)
    | succ i =>
      rw [List.getD_cons_succ]
      exact ih (fun x hx => hl x (by simp [hx])) i

/-- Reading a singleton appended at the end of a list. -/
theorem getD_concat {α : Type} (l : List α) (x d : α) :
    (l ++ [x]).getD l.length d = x := by
  rw [List.getD_append_right _ _ _ _ (le_refl _)]
  simp

/-- Reading a singleton appended at the end of a list, at any index equal to
the list's length. -/
theorem getD_concat_of_eq {α : Type} (l : List α) (x d : α) (n : ℕ)
    (h : n = l.length) : (l ++ [x]).getD n d = x := by
  subst h
  exact getD_concat l x d

/-- The signal-handling phase of a backtest step never touches the recorded
per-bar columns. -/
theorem tradePhase_cols (ps comm : ℚ) (close : List ℚ) (sig : List ℤ)
    (st : BTState) (i : ℕ) :
    (StrategyBase.tradePhase ps comm close sig st i).capitalCol = st.capitalCol
    ∧ (StrategyBase.tradePhase ps comm close sig st i).positionCol = st.positionCol
    ∧ (StrategyBase.tradePhase ps comm close sig st i).equityCol = st.equityCol := by
  unfold StrategyBase.tradePhase
  dsimp only
  split_ifs <;> exact ⟨rfl, rfl, rfl⟩

/-- Every trade in the log after processing bars `1 .. k` was recorded at a
loop index `≥ 1`, executed at that bar's close, and was triggered by the
previous bar's signal. -/
theorem btUpTo_trades_spec (ic ps comm : ℚ) (close : List ℚ) (sig : List ℤ) (k : ℕ) :
    ∀ t ∈ (StrategyBase.btUpTo ic ps comm close sig k).trades,
      1 ≤ t.date ∧ t.price = close.getD t.date 0
      ∧ sig.getD (t.date - 1) 0 = if t.isBuy then 1 else -1 := by
  induction k with
  | zero =>
    intro t ht
    simp [StrategyBase.btUpTo, StrategyBase.btInit] at ht
  | succ k ih =>
    intro t ht
    have ht' : t ∈ (StrategyBase.tradePhase ps comm close sig
        (StrategyBase.btUpTo ic ps comm close sig k) (k+1)).trades := by
      simpa [StrategyBase.btUpTo, StrategyBase.btStep, StrategyBase.recordBar] using ht
    unfold StrategyBase.tradePhase at ht'
    dsimp only at ht'
    split_ifs at ht' with h1 h2 h3
    · rw [List.mem_append, List.mem_singleton] at ht'
      rcases ht' with hold | hnew
      · exact ih t hold
      · subst hnew
        refine ⟨Nat.le_add_left 1 k, rfl, ?_⟩
        simpa using h1.1
    · exact ih t ht'
    · rw [List.mem_append, List.mem_singleton] at ht'
      rcases ht' with hold | hnew
      · exact ih t hold
      · subst hnew
        refine ⟨Nat.le_add_left 1 k, rfl, ?_⟩
        simpa using h3.1
    · exact ih t ht'

/-- C2: `StrategyBase.backtest` applies the signal with a one-bar lag: every
trade recorded at loop index `i` uses `signal[i-1]` (value `1` for a buy,
`-1` for a sell) and execution price `close[i]`, and no trade is recorded at
index 0, so no fill uses a signal computed from its own or a later bar. -/
theorem c2_one_bar_lag (ic ps comm : ℚ) (close : List ℚ) (sig : List ℤ) (t : BTrade)
    (ht : t ∈ (StrategyBase.backtest ic ps comm close sig).trades) :
    1 ≤ t.date ∧ t.price = close.getD t.date 0
    ∧ sig.getD (t.date - 1) 0 = if t.isBuy then 1 else -1 :=
  btUpTo_trades_spec ic ps comm close sig _ t ht

/-- C2 witness: the run with closes `[100, 100]` and signals `[1, 0]` records
one buy at loop index 1, and the theorem instantiates on it. -/
theorem c2_witness :
    1 ≤ (1:ℕ) ∧ (100:ℚ) = ([100, 100] : List ℚ).getD 1 0
    ∧ ([1, 0] : List ℤ).getD (1 - 1) 0 = if true then 1 else -1 :=
  c2_one_bar_lag 10000 1 0 [100, 100] [1, 0] ⟨true, 1, 100, 100, 0⟩
    (by norm_num [StrategyBase.backtest, StrategyBase.btUpTo, StrategyBase.btStep,
      StrategyBase.tradePhase, StrategyBase.recordBar, StrategyBase.btInit,
      StrategyBase.buyShares])

/-- C5: when bar `i`'s buy signal fires on a flat position but the entry cost
exceeds the available capital, the step is a pure skip: capital, position,
entry price and the trade log are unchanged, the bar's capital / position /
equity values are still recorded, and (all functions being total) nothing is
raised. -/
theorem c5_insufficient_capital_skips (ps comm : ℚ) (close : List ℚ) (sig : List ℤ)
    (st : BTState) (i : ℕ)
    (hsig : sig.getD (i - 1) 0 = 1) (hflat : st.position = 0)
    (hcost : st.capital < StrategyBase.buyCost ps comm st.capital (close.getD i 0)) :
    StrategyBase.btStep ps comm close sig st i =
      { st with capitalCol := st.capitalCol ++ [st.capital],
                positionCol := st.positionCol ++ [st.position],
                equityCol := st.equityCol ++ [st.capital + st.position * close.getD i 0] } := by
  unfold StrategyBase.buyCost at hcost
  unfold StrategyBase.btStep StrategyBase.recordBar StrategyBase.tradePhase
  dsimp only
  rw [if_pos ⟨hsig, hflat⟩, if_neg (not_le.mpr hcost)]

/-- C5 witness: with capital 100, `position_size = 1`, commission 1 and
price 10, the cost of the signalled buy is 200 > 100; the step only records
the unchanged state. -/
theorem c5_witness :
    StrategyBase.btStep 1 1 [10, 10] [1, 0] (StrategyBase.btInit 100 [10, 10]) 1 =
      { StrategyBase.btInit 100 [10, 10] with
        capitalCol := (StrategyBase.btInit 100 [10, 10]).capitalCol
          ++ [(StrategyBase.btInit 100 [10, 10]).capital],
        positionCol := (StrategyBase.btInit 100 [10, 10]).positionCol
          ++ [(StrategyBase.btInit 100 [10, 10]).position],
        equityCol := (StrategyBase.btInit 100 [10, 10]).equityCol
          ++ [(StrategyBase.btInit 100 [10, 10]).capital
              + (StrategyBase.btInit 100 [10, 10]).position * ([10, 10] : List ℚ).getD 1 0] } :=
  c5_insufficient_capital_skips 1 1 [10, 10] [1, 0] (StrategyBase.btInit 100 [10, 10]) 1
    (by decide) rfl
    (by norm_num [StrategyBase.buyCost, StrategyBase.buyShares, StrategyBase.btInit])

/-- C8 counterexample: the claim demands `equity[i] = cash + position*close[i]`
for every bar including bar 0, but row 0 of the equity column keeps its 0.0
initialisation: in a no-trade run with initial capital 10000 the recorded
`equity[0]` is 0 while cash stays 10000 and the position 0, and
`0 ≠ 10000 + 0 * close[0]`. -/
theorem c8_counterexample :
    (StrategyBase.backtest 10000 1 0 [100, 100] [0, 0]).equityCol.getD 0 0 = 0
    ∧ (StrategyBase.backtest 10000 1 0 [100, 100] [0, 0]).capital = 10000
    ∧ (StrategyBase.backtest 10000 1 0 [100, 100] [0, 0]).position = 0
    ∧ (0:ℚ) ≠ 10000 + 0 * ([100, 100] : List ℚ).getD 0 0 := by
  refine ⟨?_, ?_, ?_, by norm_num⟩ <;>
    norm_num [StrategyBase.backtest, StrategyBase.btUpTo, StrategyBase.btStep,
      StrategyBase.tradePhase, StrategyBase.recordBar, StrategyBase.btInit,
      StrategyBase.buyShares]

/-- C8 amended: the recorded columns have one entry per processed prefix, the
bookkeeping identity `equity[i] = capital[i] + position[i]*close[i]` holds at
every recorded row (row 0 trivially, since all three row-0 entries are the
0.0 initialisation values, not the pre-loop cash `initial_capital`), and for
every processed bar `k ≥ 1` the recorded `capital[k]` / `position[k]` are the
simulator's cash and position after that bar's fills. -/
theorem c8_equity_identity (ic ps comm : ℚ) (close : List ℚ) (sig : List ℤ)
    (hne : close ≠ []) (k : ℕ) :
    ((StrategyBase.btUpTo ic ps comm close sig k).capitalCol.length = k + 1
     ∧ (StrategyBase.btUpTo ic ps comm close sig k).positionCol.length = k + 1
     ∧ (StrategyBase.btUpTo ic ps comm close sig k).equityCol.length = k + 1)
    ∧ (∀ i, i ≤ k →
        (StrategyBase.btUpTo ic ps comm close sig k).equityCol.getD i 0 =
          (StrategyBase.btUpTo ic ps comm close sig k).capitalCol.getD i 0
          + (StrategyBase.btUpTo ic ps comm close sig k).positionCol.getD i 0
            * close.getD i 0)
    ∧ (1 ≤ k →
        (StrategyBase.btUpTo ic ps comm close sig k).capitalCol.getD k 0 =
          (StrategyBase.btUpTo ic ps comm close sig k).capital
        ∧ (StrategyBase.btUpTo ic ps comm close sig k).positionCol.getD k 0 =
          (StrategyBase.btUpTo ic ps comm close sig k).position) := by
  have hinit : ¬ close.isEmpty := by
    simpa [List.isEmpty_iff] using hne
  induction k with
  | zero =>
    refine ⟨⟨?_, ?_, ?_⟩, ?_, fun h => absurd h (by norm_num)⟩
    · simp [StrategyBase.btUpTo, StrategyBase.btInit, hinit]
    · simp [StrategyBase.btUpTo, StrategyBase.btInit, hinit]
    · simp [StrategyBase.btUpTo, StrategyBase.btInit, hinit]
    · intro i hi
      have h0 : i = 0 := Nat.le_zero.mp hi
      subst h0
      simp [StrategyBase.btUpTo, StrategyBase.btInit, hinit]
  | succ k ih =>
    obtain ⟨⟨hlc, hlp, hle⟩, hpt, _⟩ := ih
    obtain ⟨hc, hp, he⟩ := tradePhase_cols ps comm close sig
      (StrategyBase.btUpTo ic ps comm close sig k) (k+1)
    have hcc : (StrategyBase.btUpTo ic ps comm close sig (k+1)).capitalCol =
        (StrategyBase.btUpTo ic ps comm close sig k).capitalCol
        ++ [(StrategyBase.tradePhase ps comm close sig
              (StrategyBase.btUpTo ic ps comm close sig k) (k+1)).capital] := by
      rw [show StrategyBase.btUpTo ic ps comm close sig (k+1) =
          StrategyBase.recordBar close (StrategyBase.tradePhase ps comm close sig
            (StrategyBase.btUpTo ic ps comm close sig k) (k+1)) (k+1) from rfl]
      unfold StrategyBase.recordBar
      rw [hc]
    have hpc : (StrategyBase.btUpTo ic ps comm close sig (k+1)).positionCol =
        (StrategyBase.btUpTo ic ps comm close sig k).positionCol
        ++ [(StrategyBase.tradePhase ps comm close sig
              (StrategyBase.btUpTo ic ps comm close sig k) (k+1)).position] := by
      rw [show StrategyBase.btUpTo ic ps comm close sig (k+1) =
          StrategyBase.recordBar close (StrategyBase.tradePhase ps comm close sig
            (StrategyBase.btUpTo ic ps comm close sig k) (k+1)) (k+1) from rfl]
      unfold StrategyBase.recordBar
      rw [hp]
    have hec : (StrategyBase.btUpTo ic ps comm close sig (k+1)).equityCol =
        (StrategyBase.btUpTo ic ps comm close sig k).equityCol
        ++ [(StrategyBase.tradePhase ps comm close sig
              (StrategyBase.btUpTo ic ps comm close sig k) (k+1)).capital
            + (StrategyBase.tradePhase ps comm close sig
                (StrategyBase.btUpTo ic ps comm close sig k) (k+1)).position
              * close.getD (k+1) 0] := by
      rw [show StrategyBase.btUpTo ic ps comm close sig (k+1) =
          StrategyBase.recordBar close (StrategyBase.tradePhase ps comm close sig
            (StrategyBase.btUpTo ic ps comm close sig k) (k+1)) (k+1) from rfl]
      unfold StrategyBase.recordBar
      rw [he]
    have hcap : (StrategyBase.btUpTo ic ps comm close sig (k+1)).capital =
        (StrategyBase.tradePhase ps comm close sig
          (StrategyBase.btUpTo ic ps comm close sig k) (k+1)).capital := rfl
    have hposn : (StrategyBase.btUpTo ic ps comm close sig (k+1)).position =
        (StrategyBase.tradePhase ps comm close sig
          (StrategyBase.btUpTo ic ps comm close sig k) (k+1)).position := rfl
    refine ⟨⟨?_, ?_, ?_⟩, ?_, fun _ => ⟨?_, ?_⟩⟩
    · rw [hcc, List.length_append, hlc]
      rfl
    · rw [hpc, List.length_append, hlp]
      rfl
    · rw [hec, List.length_append, hle]
      rfl
    · intro i hi
      rcases Nat.lt_or_ge i (k+1) with hik | hik
      · have hik' : i ≤ k := Nat.lt_succ_iff.mp hik
        rw [hcc, hpc, hec,
            List.getD_append _ _ _ _ (hle ▸ hik),
            List.getD_append _ _ _ _ (hlc ▸ hik),
            List.getD_append _ _ _ _ (hlp ▸ hik)]
        exact hpt i hik'
      · have hik2 : i = k + 1 := le_antisymm hi hik
        subst hik2
        rw [hcc, hpc, hec,
            getD_concat_of_eq _ _ _ _ hle.symm,
            getD_concat_of_eq _ _ _ _ hlc.symm,
            getD_concat_of_eq _ _ _ _ hlp.symm]
    · rw [hcc, hcap, getD_concat_of_eq _ _ _ _ hlc.symm]
    · rw [hpc, hposn, getD_concat_of_eq _ _ _ _ hlp.symm]

/-- C8 witness: in the concrete no-trade run the identity holds at bar 1. -/
theorem c8_witness :
    (StrategyBase.btUpTo 10000 1 0 [100, 100] [0, 0] 1).equityCol.getD 1 0 =
      (StrategyBase.btUpTo 10000 1 0 [100, 100] [0, 0] 1).capitalCol.getD 1 0
      + (StrategyBase.btUpTo 10000 1 0 [100, 100] [0, 0] 1).positionCol.getD 1 0
        * ([100, 100] : List ℚ).getD 1 0 :=
  (c8_equity_identity 10000 1 0 [100, 100] [0, 0] (by decide) 1).2.1 1 (le_refl 1)

/-- C10 counterexample: the claim as stated allows any commission ≥ 0, but
with commission 2 a sell's proceeds are negative: initial capital 10000,
`position_size = 1/4`, nonnegative closes `[100, 100, 1000]`, a buy then a
sell drive the cash balance to −22500 < 0. -/
theorem c10_counterexample :
    ((0:ℚ) ≤ 10000 ∧ (0:ℚ) ≤ 1/4 ∧ (0:ℚ) ≤ 2
      ∧ ∀ x ∈ ([100, 100, 1000] : List ℚ), 0 ≤ x)
    ∧ (StrategyBase.backtest 10000 (1/4) 2 [100, 100, 1000] [1, -1, 0]).capital < 0 := by
  refine ⟨⟨by norm_num, by norm_num, by norm_num, by decide⟩, ?_⟩
  norm_num [StrategyBase.backtest, StrategyBase.btUpTo, StrategyBase.btStep,
    StrategyBase.tradePhase, StrategyBase.recordBar, StrategyBase.btInit,
    StrategyBase.buyShares]

/-- C10 amended: with nonnegative prices, nonnegative initial capital,
nonnegative `position_size`, and commission in `[0, 1]`, the simulator's cash
and position are nonnegative after processing every bar: a buy executes only
when its full cost fits in cash, and a sell of a positive position at a
commission ≤ 1 can only add cash. -/
theorem c10_no_negative_balances (ic ps comm : ℚ) (close : List ℚ) (sig : List ℤ)
    (hic : 0 ≤ ic) (hps : 0 ≤ ps) (hc0 : 0 ≤ comm) (hc1 : comm ≤ 1)
    (hclose : ∀ x ∈ close, 0 ≤ x) (k : ℕ) :
    0 ≤ (StrategyBase.btUpTo ic ps comm close sig k).capital
    ∧ 0 ≤ (StrategyBase.btUpTo ic ps comm close sig k).position := by
  induction k with
  | zero => exact ⟨hic, le_refl 0⟩
  | succ k ih =>
    have hprice : 0 ≤ close.getD (k+1) 0 := getD_nonneg close hclose (k+1)
    show 0 ≤ (StrategyBase.recordBar close _ _).capital
      ∧ 0 ≤ (StrategyBase.recordBar close _ _).position
    unfold StrategyBase.recordBar
    dsimp only
    unfold StrategyBase.tradePhase
    dsimp only
    split_ifs with h1 h2 h3
    all_goals try dsimp only
    · exact ⟨by linarith [h2], div_nonneg (mul_nonneg ih.1 hps) hprice⟩
    · exact ih
    · refine ⟨?_, le_refl 0⟩
      have : 0 ≤ (StrategyBase.btUpTo ic ps comm close sig k).position
          * close.getD (k+1) 0 * (1 - comm) :=
        mul_nonneg (mul_nonneg ih.2 hprice) (by linarith)
      linarith [ih.1]
    · exact ih

/-- C10 witness: a run satisfying all the amended hypotheses (commission 0)
ends bar 1 with nonnegative cash and position. -/
theorem c10_witness :
    0 ≤ (StrategyBase.btUpTo 10000 1 0 [100, 100] [1, 0] 1).capital
    ∧ 0 ≤ (StrategyBase.btUpTo 10000 1 0 [100, 100] [1, 0] 1).position :=
  c10_no_negative_balances 10000 1 0 [100, 100] [1, 0] (by norm_num) (by norm_num)
    (by norm_num) (by norm_num) (by decide) 1

/-- Updating the inventory of level `k` in place adds `v` to the value
`dictGet` reads back at `k`, provided the key is present. -/
theorem dictGet_map_add (ps : List (ℕ × ℚ)) (k : ℕ) (v : ℚ)
    (h : (ps.any fun e => e.1 == k) = true) :
    GridStrategy.dictGet (ps.map fun e => if e.1 == k then (e.1, e.2 + v) else e) k
      = GridStrategy.dictGet ps k + v := by
  induction ps with
  | nil => simp at h
  | cons e ps ih =>
    by_cases hk : e.1 = k
    · unfold GridStrategy.dictGet
      rw [List.map_cons, if_pos (by simpa using hk),
          List.find?_cons_of_pos _ (by simpa using hk),
          List.find?_cons_of_pos _ (by simpa using hk)]
      simp
    · have h' : (ps.any fun e => e.1 == k) = true := by
        simpa [hk] using h
      unfold GridStrategy.dictGet
      rw [List.map_cons, if_neg (by simpa using hk),
          List.find?_cons_of_neg _ (by simpa using hk),
          List.find?_cons_of_neg _ (by simpa using hk)]
      exact ih h'

/-- When the key `k` is absent, its inventory reads as 0. -/
theorem dictGet_eq_zero_of_absent (ps : List (ℕ × ℚ)) (k : ℕ)
    (h : (ps.any fun e => e.1 == k) = false) :
    GridStrategy.dictGet ps k = 0 := by
  induction ps with
  | nil => rfl
  | cons e ps ih =>
    have hk : ¬ e.1 = k := by
      intro hk
      simp [hk] at h
    have h' : (ps.any fun e => e.1 == k) = false := by
      simpa [hk] using h
    unfold GridStrategy.dictGet
    rw [List.find?_cons_of_neg _ (by simpa using hk)]
    exact ih h'

/-- Appending a fresh binding `(k, v)` makes `dictGet` read `v` at `k`,
provided the key was absent. -/
theorem dictGet_append_fresh (ps : List (ℕ × ℚ)) (k : ℕ) (v : ℚ)
    (h : (ps.any fun e => e.1 == k) = false) :
    GridStrategy.dictGet (ps ++ [(k, v)]) k = v := by
  induction ps with
  | nil =>
    unfold GridStrategy.dictGet
    rw [List.nil_append, List.find?_cons_of_pos _ (by simp)]
    rfl
  | cons e ps ih =>
    have hk : ¬ e.1 = k := by
      intro hk
      simp [hk] at h
    have h' : (ps.any fun e => e.1 == k) = false := by
      simpa [hk] using h
    unfold GridStrategy.dictGet
    rw [List.cons_append, List.find?_cons_of_neg _ (by simpa using hk)]
    exact ih h'

/-- A `positions[k] += v` buy fill: `dictGet` at `k` grows by `v`. -/
theorem dictGet_dictAdd_self (ps : List (ℕ × ℚ)) (k : ℕ) (v : ℚ) :
    GridStrategy.dictGet (GridStrategy.dictAdd ps k v) k
      = GridStrategy.dictGet ps k + v := by
  unfold GridStrategy.dictAdd
  split_ifs with hmem
  · exact dictGet_map_add ps k v hmem
  · rw [dictGet_append_fresh ps k v (Bool.not_eq_true _ ▸ hmem),
        dictGet_eq_zero_of_absent ps k (Bool.not_eq_true _ ▸ hmem), zero_add]

/-- A `positions[k] += v` buy fill leaves every other level unchanged. -/
theorem dictGet_dictAdd_other (ps : List (ℕ × ℚ)) (k j : ℕ) (v : ℚ)
    (hj : j ≠ k) :
    GridStrategy.dictGet (GridStrategy.dictAdd ps k v) j
      = GridStrategy.dictGet ps j := by
  have hkj : k ≠ j := fun h => hj h.symm
  unfold GridStrategy.dictAdd
  split_ifs with hmem
  · clear hmem
    induction ps with
    | nil => rfl
    | cons e ps ih =>
      by_cases hej : e.1 = j
      · have hek : ¬ e.1 = k := by
          rw [hej]
          exact fun h => hkj h.symm
        unfold GridStrategy.dictGet
        rw [List.map_cons, if_neg (by simpa using hek),
            List.find?_cons_of_pos _ (by simpa using hej),
            List.find?_cons_of_pos _ (by simpa using hej)]
      · by_cases hek : e.1 = k
        · unfold GridStrategy.dictGet
          rw [List.map_cons, if_pos (by simpa using hek),
              List.find?_cons_of_neg _ (by simpa using hej),
              List.find?_cons_of_neg _ (by simpa using hej)]
          exact ih
        · unfold GridStrategy.dictGet
          rw [List.map_cons, if_neg (by simpa using hek),
              List.find?_cons_of_neg _ (by simpa using hej),
              List.find?_cons_of_neg _ (by simpa using hej)]
          exact ih
  · clear hmem
    induction ps with
    | nil =>
      unfold GridStrategy.dictGet
      rw [List.nil_append, List.find?_cons_of_neg _ (by simpa using hkj)]
    | cons e ps ih =>
      by_cases hej : e.1 = j
      · unfold GridStrategy.dictGet
        rw [List.cons_append, List.find?_cons_of_pos _ (by simpa using hej),
            List.find?_cons_of_pos _ (by simpa using hej)]
      · unfold GridStrategy.dictGet
        rw [List.cons_append, List.find?_cons_of_neg _ (by simpa using hej),
            List.find?_cons_of_neg _ (by simpa using hej)]
        exact ih

/-- The sell loop's level choice: `lowestFilled ps = some lv` means some
binding `(lv, q)` with positive inventory exists and `lv` is the smallest
key with positive inventory. -/
theorem lowestFilled_spec (ps : List (ℕ × ℚ)) (lv : ℕ)
    (h : GridStrategy.lowestFilled ps = some lv) :
    (∃ q, (lv, q) ∈ ps ∧ 0 < q) ∧ ∀ e ∈ ps, 0 < e.2 → lv ≤ e.1 := by
  unfold GridStrategy.lowestFilled at h
  rw [List.min?_eq_some_iff'] at h
  obtain ⟨hmem, hmin⟩ := h
  constructor
  · rw [List.mem_map] at hmem
    obtain ⟨e, he, hfst⟩ := hmem
    rw [List.mem_filter] at he
    refine ⟨e.2, ?_, of_decide_eq_true he.2⟩
    rw [← hfst]
    exact he.1
  · intro e hmem hpos
    exact hmin e.1 (List.mem_map.mpr ⟨e, List.mem_filter.mpr ⟨hmem, decide_eq_true hpos⟩, rfl⟩)

/-- With duplicate-free keys (the Python dict invariant), `dictGet` reads the
value of any binding present in the association list. -/
theorem dictGet_of_mem_nodup (ps : List (ℕ × ℚ)) (k : ℕ) (q : ℚ)
    (hnd : (ps.map Prod.fst).Nodup) (hmem : (k, q) ∈ ps) :
    GridStrategy.dictGet ps k = q := by
  induction ps with
  | nil => simp at hmem
  | cons e ps ih =>
    rw [List.map_cons, List.nodup_cons] at hnd
    rcases List.mem_cons.mp hmem with heq | hmem'
    · rw [← heq]
      unfold GridStrategy.dictGet
      rw [List.find?_cons_of_pos _ (by simp)]
      rfl
    · have hk : ¬ e.1 = k := by
        intro hk
        exact hnd.1 (hk ▸ List.mem_map.mpr ⟨(k, q), hmem', rfl⟩)
      unfold GridStrategy.dictGet
      rw [List.find?_cons_of_neg _ (by simpa using hk)]
      exact ih hnd.2 hmem'

/-- C6 counterexample: grid 0..70 with 7 levels, unit shares, zero
commission.  Buys-only run `[65, 45, 35]`: the two buys land on the CURRENT
bars' levels 4 and 3 while level 0 — the lowest unfilled level — stays
empty, so a buy does not fill the lowest unfilled level.  Run
`[65, 45, 35, 25, 65, 45]`: bar 4's sell signal finds level 2 positively
filled, and the backtest aborts (`none`, the line-181 `TypeError`) instead
of removing that level's inventory — no executed sell ever removes
anything. -/
theorem c6_counterexample :
    (GridStrategy.backtest 70 0 7 10000 1 0 [65, 45, 35]).map
        (fun st => st.positions) = some [(4, 1), (3, 1)]
    ∧ (GridStrategy.backtest 70 0 7 10000 1 0 [65, 45, 35]).map
        (fun st => GridStrategy.dictGet st.positions 0) = some 0
    ∧ GridStrategy.backtest 70 0 7 10000 1 0 [65, 45, 35, 25, 65, 45] = none := by
  refine ⟨?_, ?_, ?_⟩ <;>
    norm_num [GridStrategy.backtest, GridStrategy.gridUpTo, GridStrategy.gridTradePhase,
      GridStrategy.grid_prices, GridStrategy.grid_position, GridStrategy.grid_signal,
      GridStrategy.dictGet, GridStrategy.dictAdd, GridStrategy.lowestFilled,
      List.min?, List.filter, List.range_succ, List.find?, Option.bind] <;>
    decide

/-- C6 amended: in `GridStrategy.backtest` (with the dict's duplicate-free
key invariant), an executed buy adds `shares_per_grid` to the CURRENT bar's
grid level — which may already be filled, so a level can accumulate several
units — leaving all other levels unchanged; inventory is a per-level dict
keyed by grid index (created lazily, not a fixed-size at-most-one-unit
array).  A sell signal with no positively-filled level does nothing, and a
sell that finds one — the smallest such level — never completes: line 181's
original-cost lookup indexes `.iloc` with a scalar boolean and raises
`TypeError` before any state update, aborting the backtest. -/
theorem c6_grid_inventory (spg comm : ℚ) (close : List ℚ) (gpos : List ℕ)
    (sig : List ℤ) (st : GridState) (i : ℕ)
    (hnd : (st.positions.map Prod.fst).Nodup) :
    (sig.getD i 0 = 1 → spg * close.getD i 0 * (1 + comm) ≤ st.capital →
      ∃ st', GridStrategy.gridTradePhase spg comm close gpos sig st i = some st'
        ∧ GridStrategy.dictGet st'.positions (gpos.getD i 0)
            = GridStrategy.dictGet st.positions (gpos.getD i 0) + spg
        ∧ ∀ j, j ≠ gpos.getD i 0 →
            GridStrategy.dictGet st'.positions j = GridStrategy.dictGet st.positions j)
    ∧ (∀ lv, sig.getD i 0 = -1 → GridStrategy.lowestFilled st.positions = some lv →
        (0 < GridStrategy.dictGet st.positions lv
         ∧ (∀ e ∈ st.positions, 0 < e.2 → lv ≤ e.1)
         ∧ GridStrategy.gridTradePhase spg comm close gpos sig st i = none))
    ∧ (sig.getD i 0 = -1 → GridStrategy.lowestFilled st.positions = none →
        GridStrategy.gridTradePhase spg comm close gpos sig st i = some st) := by
  refine ⟨?_, ?_, ?_⟩
  · intro hsig hcost
    refine ⟨{ capital := st.capital - spg * close.getD i 0 * (1 + comm),
              positions := GridStrategy.dictAdd st.positions (gpos.getD i 0) spg,
              trades := st.trades ++ [⟨true, i, close.getD i 0, spg, gpos.getD i 0⟩] },
      ?_, dictGet_dictAdd_self st.positions (gpos.getD i 0) spg,
      fun j hj => dictGet_dictAdd_other st.positions (gpos.getD i 0) j spg hj⟩
    unfold GridStrategy.gridTradePhase
    dsimp only
    rw [if_pos hsig, if_pos hcost]
  · intro lv hsig hlow
    obtain ⟨⟨q, hq, hqpos⟩, hminim⟩ := lowestFilled_spec st.positions lv hlow
    have hget : GridStrategy.dictGet st.positions lv = q :=
      dictGet_of_mem_nodup st.positions lv q hnd hq
    refine ⟨hget ▸ hqpos, hminim, ?_⟩
    unfold GridStrategy.gridTradePhase
    dsimp only
    rw [if_neg (by rw [hsig]; norm_num), if_pos hsig, hlow]
  · intro hsig hlow
    unfold GridStrategy.gridTradePhase
    dsimp only
    rw [if_neg (by rw [hsig]; norm_num), if_pos hsig, hlow]

/-- C6 witness: applying the amended theorem's buy case at a concrete state
whose inventory dict is `[(3, 1)]`, a signalled and affordable buy at grid
level 2 completes, adds one unit at level 2 and leaves every other level
unchanged. -/
theorem c6_witness :
    ∃ st', GridStrategy.gridTradePhase 1 0 [10] [2] [1] ⟨100, [(3, 1)], []⟩ 0 = some st'
      ∧ GridStrategy.dictGet st'.positions (([2] : List ℕ).getD 0 0)
          = GridStrategy.dictGet [(3, 1)] (([2] : List ℕ).getD 0 0) + 1
      ∧ ∀ j, j ≠ ([2] : List ℕ).getD 0 0 →
          GridStrategy.dictGet st'.positions j = GridStrategy.dictGet [(3, 1)] j :=
  (c6_grid_inventory 1 0 [10] [2] [1] ⟨100, [(3, 1)], []⟩ 0 (by simp)).1
    (by decide) (by norm_num)

/-- C7: the risk rules of `_apply_risk_management`, for a positive price, a
nonnegative current position and a positive position-fraction: a Hold signal
(0) never executes; a Buy is rejected whenever the current position value
reaches the cap `total_assets * max_position_fraction` (this covers the
nonpositive-total-assets early return); otherwise the quantity is
`(cap - position_value) / price`, rejected instead when its notional is
below the hard-coded minimum notional 10. -/
theorem c7_risk_checks (mps price pos : ℚ) (accounts : List (Option ℚ))
    (hprice : 0 < price) (hpos : 0 ≤ pos) (hmps : 0 < mps) :
    TradeDecision.apply_risk_management mps 0 price accounts pos = some (false, 0)
    ∧ ((accounts.filterMap id).sum * mps ≤ pos * price →
        TradeDecision.apply_risk_management mps 1 price accounts pos = some (false, 0))
    ∧ (pos * price < (accounts.filterMap id).sum * mps →
        TradeDecision.apply_risk_management mps 1 price accounts pos =
          if ((accounts.filterMap id).sum * mps - pos * price) / price * price < 10
          then some (false, 0)
          else some (true, ((accounts.filterMap id).sum * mps - pos * price) / price)) := by
  refine ⟨rfl, ?_, ?_⟩
  · intro hcap
    unfold TradeDecision.apply_risk_management
    rw [if_neg (by norm_num)]
    dsimp only
    by_cases htot : (accounts.filterMap id).sum ≤ 0
    · rw [if_pos htot]
    · rw [if_neg htot, if_pos rfl, if_pos hcap]
  · intro hlt
    have hpv : 0 ≤ pos * price := mul_nonneg hpos hprice.le
    have htot : ¬ (accounts.filterMap id).sum ≤ 0 := by
      intro h
      have h2 : (accounts.filterMap id).sum * mps ≤ 0 * mps :=
        mul_le_mul_of_nonneg_right h hmps.le
      rw [zero_mul] at h2
      linarith
    unfold TradeDecision.apply_risk_management
    rw [if_neg (by norm_num)]
    dsimp only
    rw [if_neg htot, if_pos rfl, if_neg (not_le.mpr hlt)]

/-- C7 witness (spec Scenario D): `total_assets = 100000`,
`max_position_fraction = 0.1`, an existing position worth 10000 at the
current price 100 — the Buy signal is rejected (already at cap).  The Hold
case and the quantity formula follow from the same theorem instance. -/
theorem c7_witness :
    TradeDecision.apply_risk_management (1/10) 1 100 [some 100000] 100
      = some (false, 0) :=
  (c7_risk_checks (1/10) 100 100 [some 100000] (by norm_num) (by norm_num)
    (by norm_num)).2.1 (by norm_num [List.filterMap_cons])

/-- C9 counterexample: `MACD.get_signal` on a frame whose `macd` columns are
already present mutates the caller's frame in place — after the call the
caller's object has gained a `macd_cross_signal` column, so the argument is
NOT unchanged. -/
theorem c9_counterexample :
    (MACD.get_signal_cross 12 26 9
        [(ColName.close, [1, 2]), (ColName.macd, [1, 1]), (ColName.macdSignal, [0, 2])]).2
      ≠ [(ColName.close, [1, 2]), (ColName.macd, [1, 1]), (ColName.macdSignal, [0, 2])] := by
  decide

/-- C9 amended: `calculate` stages copy and never mutate, but an indicator
`get_signal` stage copies only when it must recompute the indicator: when
the indicator columns are already present, it writes the signal column into
the caller's frame in place (the caller's object IS the returned frame);
only when the `macd` column is absent does the internal `calculate` copy
isolate the caller's frame. -/
theorem c9_get_signal_aliasing (fast_period slow_period signal_period : ℕ) (f : Frame) :
    (hasCol f ColName.macd = true →
      (MACD.get_signal_cross fast_period slow_period signal_period f).2 =
        (MACD.get_signal_cross fast_period slow_period signal_period f).1)
    ∧ (hasCol f ColName.macd = false →
      (MACD.get_signal_cross fast_period slow_period signal_period f).2 = f) := by
  unfold MACD.get_signal_cross
  constructor
  · intro h
    rw [if_pos h]
  · intro h
    rw [if_neg (by rw [h]; exact Bool.false_ne_true)]

/-- C9 witness: on a frame without a `macd` column the caller's frame is
returned unchanged in the second component. -/
theorem c9_witness :
    (MACD.get_signal_cross 12 26 9 [(ColName.close, [1])]).2 = [(ColName.close, [1])] :=
  (c9_get_signal_aliasing 12 26 9 [(ColName.close, [1])]).2 (by decide)

/-- C4 witness: the RSI level rule applied at a concrete oversold bounce —
`rsi = [10, 40]`, oversold 30 — fires `+1` at bar 1, and the theorem yields
that the trigger condition (`rsi > 30`) did not hold at bar 0. -/
theorem c4_witness : ¬ (30:ℚ) < ([10, 40] : List ℚ).getD 0 0 :=
  (c4_level_signal_edges.1 [10, 40] 70 30 1).1 (by decide)

end AutoInvest
